import Mathlib

/-!
Verification development for the chatrank plugin of a twitch chat bot
(src/bot/plugins/chatrank.py).

The plugin scans a directory of daily log files, counts per-user events
with three regular expressions (chat lines, bonks issued, bonks received),
ranks users with tie-aware competition ranking, and fits a linear trend to
a per-user daily series.

Shallow embedding conventions:
- a log line is a list of characters; a username is a list of characters;
- the three anchored regular expressions are embedded as deterministic
  parsers (each pattern is deterministic: every quantified character class
  excludes the character that must follow it, so greedy matching with
  backtracking never revisits a choice);
- a Python Counter is an insertion-ordered association list;
- Python exceptions (AssertionError, ZeroDivisionError) are Except errors;
- the functools.lru_cache on counts_per_file is an explicit association
  list threaded through the directory scan, with an event trace recording
  every cache lookup, cache store and underlying computation;
- Python float arithmetic in lin_regr is modelled with exact rationals;
  on every concrete input appearing below the float computation is exact
  (all intermediate values are small integers and the divisions are exact),
  so the rational model agrees with the float semantics there.
-/

deriving instance DecidableEq for Except

/-- A string of the Python program: log line contents, usernames, filenames. -/
abbrev Str := List Char

/-- One raw log line. -/
abbrev Line := List Char

/-- The three compiled regular expressions of the plugin:
CHAT_LOG_RE, BONKER_RE, BONKED_RE. The lru_cache keys on the pattern
object identity, so the pattern is modelled as an enumerated tag. -/
inductive Reg where
  | chatLog
  | bonker
  | bonked
deriving DecidableEq

/-- A Python exception escaping the modelled code. -/
inductive Err where
  | assertionFailed
deriving DecidableEq

/-- str.lower, applied characterwise. -/
def lower (s : Str) : Str := s.map Char.toLower

/-- Python re module word character, ASCII part: [A-Za-z0-9_].
(The Python default is Unicode-aware; the claims below do not depend on
the non-ASCII part, since the only word-character tests made are on the
space character and on ASCII usernames.) -/
def isWordChar (c : Char) : Bool :=
  (('a' ≤ c && c ≤ 'z') || ('A' ≤ c && c ≤ 'Z') || ('0' ≤ c && c ≤ '9') || c == '_')

/-- Consume characters up to and including the first right bracket,
returning the remainder; none when no right bracket occurs.
Models the deterministic match of the regex fragment consuming through
the first right bracket. -/
def skipToRBracket : Line → Option Line
  | [] => none
  | c :: r => if c = ']' then some r else skipToRBracket r

/-- True for characters the regex fragment [^<*]* may consume. -/
def notTagStart (c : Char) : Bool := !(c == '<') && !(c == '*')

/-- Parse the common anchored prefix of all three patterns:
a left bracket, one or more non-right-bracket characters, a right
bracket, then zero or more characters that are neither a less-than sign
nor an asterisk. Returns the remainder of the line. Deterministic:
each character class excludes the character that must follow it. -/
def parseHeader : Line → Option Line
  | '[' :: c :: r =>
      if c = ']' then none
      else (skipToRBracket r).map (fun rest => rest.dropWhile notTagStart)
  | _ => none

/-- CHAT_LOG_RE: after the common header, either an angle-bracketed
username (group chat_user, one or more non-greater-than characters
followed by a greater-than sign) or an asterisk, a space, and a
non-space username (group action_user). Returns the captured username. -/
def chatUser (l : Line) : Option Str :=
  match parseHeader l with
  | some ('<' :: r) =>
      let u := r.takeWhile (fun c => c != '>')
      if u = [] then none
      else if r.drop u.length = [] then none
      else some u
  | some ('*' :: ' ' :: r) =>
      let u := r.takeWhile (fun c => c != ' ')
      if u = [] then none else some u
  | _ => none

/-- Shared core of BONKER_RE and BONKED_RE: the common header, an
angle-bracketed poster name, then the literal text of a greater-than
sign, a space, and the bonk command word. Returns the poster and the
remainder of the line after the command word. -/
def bonkCore (l : Line) : Option (Str × Line) :=
  match parseHeader l with
  | some ('<' :: r) =>
      let u := r.takeWhile (fun c => c != '>')
      if u = [] then none
      else if (r.drop u.length).take 7 = "> !bonk".data
      then some (u, (r.drop u.length).drop 7)
      else none
  | _ => none

/-- BONKER_RE: the bonk core followed by a word boundary (end of line or
a non-word character). Captures the poster. -/
def bonkerUser (l : Line) : Option Str :=
  match bonkCore l with
  | some (u, []) => some u
  | some (u, c :: _) => if isWordChar c then none else some u
  | none => none

/-- BONKED_RE: the bonk core followed by a space, an optional at sign,
and one or more word characters. Captures the target. The optional at
sign never backtracks observably: when present it is consumed, and when
the following word characters are absent the alternative of matching
word characters at the at sign itself also fails. -/
def bonkedUser (l : Line) : Option Str :=
  match bonkCore l with
  | some (_, ' ' :: rest) =>
      let body := match rest with
        | '@' :: r2 => r2
        | r2 => r2
      let w := body.takeWhile isWordChar
      if w = [] then none else some w
  | _ => none

/-- reg.match(line) followed by the username extraction
(group chat_user or group action_user, whichever participated). -/
def matchUser : Reg → Line → Option Str
  | .chatLog, l => chatUser l
  | .bonker, l => bonkerUser l
  | .bonked, l => bonkedUser l

/-- An insertion-ordered Python Counter: association list from username
to count, new keys appended at the end. -/
abbrev Counter := List (Str × Nat)

/-- Counter lookup with the Counter default of zero for a missing key. -/
def countOf : Counter → Str → Nat
  | [], _ => 0
  | (u, n) :: rest, k => if u = k then n else countOf rest k

/-- counts[key] += 1 : increment an existing key in place, or append the
new key with count one (dict insertion order). -/
def incr : Counter → Str → Counter
  | [], k => [(k, 1)]
  | (u, n) :: rest, k =>
      if u = k then (u, n + 1) :: rest else (u, n) :: incr rest k

/-- total[key] += v for one key of the other counter. -/
def addCount : Counter → Str → Nat → Counter
  | [], k, v => [(k, v)]
  | (u, n) :: rest, k, v =>
      if u = k then (u, n + v) :: rest else (u, n) :: addCount rest k v

/-- Counter.update: add the other counter into the total, iterating the
other counter in its insertion order. -/
def counterUpdate (total other : Counter) : Counter :=
  other.foldl (fun t p => addCount t p.1 p.2) total

/-- Sum of all counts of a counter. -/
def counterSum (c : Counter) : Nat := (c.map Prod.snd).sum

instance : DecidableEq (List (Nat × Nat × List (Str × Nat))) :=
  instDecidableEqList

/-- The line loop of counts_per_file. For each line: apply the matcher;
on no match, assert that the matcher is not CHAT_LOG_RE (the plugin
writes its own logs, so every log line is expected to match the chat
pattern) and skip; on a match, assert the extracted username is
non-empty and count its lowercase form. A failed assert is an
AssertionError escaping the call. -/
def countsGo (reg : Reg) : List Line → Counter → Except Err Counter
  | [], counts => .ok counts
  | l :: ls, counts =>
      match matchUser reg l with
      | none =>
          if reg = .chatLog then .error .assertionFailed
          else countsGo reg ls counts
      | some u =>
          if u = [] then .error .assertionFailed
          else countsGo reg ls (incr counts (lower u))

/-- counts_per_file(filename, reg), as a function of the file contents:
count matching lines per lowercased username. -/
def counts_per_file (reg : Reg) (lines : List Line) : Except Err Counter :=
  countsGo reg lines []

/-- A log file: filename and contents (list of lines). -/
abbrev LogFile := Str × List Line

/-- The lru_cache key of counts_per_file: full path and pattern identity. -/
abbrev Key := Str × Reg

/-- The lru_cache table: insertion-ordered association list. -/
abbrev Cache := List (Key × Counter)

/-- os.path.join of the logs directory with a filename. -/
def fullPath (name : Str) : Str := "logs/".data ++ name

/-- A cache lookup: the first entry with the given key. -/
def lookupCache (cache : Cache) (k : Key) : Option Counter :=
  (cache.find? (fun e => e.1 = k)).map Prod.snd

/-- One observable event of the directory scan: an lru_cache lookup, an
lru_cache store, or an execution of the underlying count computation. -/
inductive CEvent where
  | lookup (k : Key)
  | store (k : Key)
  | compute (k : Key)
deriving DecidableEq

/-- The key an event is about. -/
def keyOf : CEvent → Key
  | .lookup k => k
  | .store k => k
  | .compute k => k

/-- True for the events that touch the cache (lookup or store), false
for a bare computation. -/
def isTouch : CEvent → Bool
  | .lookup _ => true
  | .store _ => true
  | .compute _ => false

/-- The keys of the computation events of a trace, in order. -/
def computeKeys (evs : List CEvent) : List Key :=
  evs.filterMap (fun e => match e with | .compute k => some k | _ => none)

/-- Result of processing files: final cache, event trace, and either the
accumulated counter or the first escaping exception. -/
structure StepOut where
  cache : Cache
  events : List CEvent
  result : Except Err Counter
deriving DecidableEq

/-- Processing of one directory entry inside chat_rank_counts.
A file whose name differs from the name built from the current date is
read through the lru_cache: a lookup, then on a miss a computation
followed (on success) by a store. The file named for the current date
calls the wrapped function directly, bypassing the cache on both read
and write. An exception escaping the computation is re-raised before
any store (lru_cache never caches a raised call). -/
def stepFile (todayLog : Str) (reg : Reg) (cache : Cache) (f : LogFile) : StepOut :=
  if f.1 ≠ todayLog then
    match lookupCache cache (fullPath f.1, reg) with
    | some c => ⟨cache, [.lookup (fullPath f.1, reg)], .ok c⟩
    | none =>
        match counts_per_file reg f.2 with
        | .error e =>
            ⟨cache, [.lookup (fullPath f.1, reg), .compute (fullPath f.1, reg)], .error e⟩
        | .ok c =>
            ⟨cache ++ [((fullPath f.1, reg), c)],
             [.lookup (fullPath f.1, reg), .compute (fullPath f.1, reg),
              .store (fullPath f.1, reg)], .ok c⟩
  else
    match counts_per_file reg f.2 with
    | .error e => ⟨cache, [.compute (fullPath f.1, reg)], .error e⟩
    | .ok c => ⟨cache, [.compute (fullPath f.1, reg)], .ok c⟩

/-- The directory loop of chat_rank_counts: fold every file into the
running total with Counter.update, threading the cache and stopping at
the first escaping exception. -/
def runPass (todayLog : Str) (reg : Reg) (total : Counter) (cache : Cache) :
    List LogFile → StepOut
  | [] => ⟨cache, [], .ok total⟩
  | f :: rest =>
      let s := stepFile todayLog reg cache f
      match s.result with
      | .error e => ⟨s.cache, s.events, .error e⟩
      | .ok c =>
          let out := runPass todayLog reg (counterUpdate total c) s.cache rest
          ⟨out.cache, s.events ++ out.events, out.result⟩

/-- A whole process lifetime: a sequence of aggregation passes, each
with its own pattern and directory listing, sharing one cache. -/
def runLife (todayLog : Str) (cache : Cache) :
    List (Reg × List LogFile) → Cache × List CEvent
  | [] => (cache, [])
  | (reg, files) :: rest =>
      let out := runPass todayLog reg [] cache files
      let tail := runLife todayLog out.cache rest
      (tail.1, out.events ++ tail.2)

/-- chat_rank_counts(reg): total counts over the directory listing,
starting from an empty total. -/
def chat_rank_counts (reg : Reg) (todayLog : Str) (files : List LogFile)
    (cache : Cache) : Except Err Counter :=
  (runPass todayLog reg [] cache files).result

/-- Stable insertion of one entry into a list sorted by descending
count: the new entry goes after every existing entry whose count is at
least its own. -/
def insertByCount (p : Str × Nat) : List (Str × Nat) → List (Str × Nat)
  | [] => [p]
  | q :: qs => if p.2 ≤ q.2 then q :: insertByCount p qs else p :: q :: qs

/-- Counter.most_common(): the counter entries sorted by descending
count; the sort is stable, so entries with equal counts keep their
insertion order. (most_common(n) is the first n entries of this list,
per the documented equivalence of heapq.nlargest with a stable
descending sort followed by truncation.) -/
def most_common (c : Counter) : List (Str × Nat) :=
  c.foldl (fun acc p => insertByCount p acc) []

/-- itertools.groupby by count: group consecutive entries with equal
counts, keeping their order. -/
def groupByCount : List (Str × Nat) → List (Nat × List (Str × Nat))
  | [] => []
  | p :: ps =>
      match groupByCount ps with
      | [] => [(p.2, [p])]
      | (c, g) :: rest =>
          if p.2 = c then (c, p :: g) :: rest
          else (p.2, [p]) :: (c, g) :: rest

/-- tied_rank: enumerate the count groups with 1-based ranks
(competition ranking: one rank per group, no gaps). -/
def tied_rank (l : List (Str × Nat)) : List (Nat × Nat × List (Str × Nat)) :=
  List.enumFrom 1 (groupByCount l)

/-- The search loop of user_rank_by_line_type: scan the ranked groups
and return the rank and count of the first group containing the target
username; none when the user is in no group. -/
def findRank (target : Str) : List (Nat × Nat × List (Str × Nat)) → Option (Nat × Nat)
  | [] => none
  | (rank, count, users) :: rest =>
      if users.any (fun p => p.1 = target) then some (rank, count)
      else findRank target rest

/-- The ranking core of user_rank_by_line_type on an aggregated total:
lowercase the lookup name, then search the tie-ranked full sorted list. -/
def user_rank_on_total (username : Str) (total : Counter) : Option (Nat × Nat) :=
  findRank (lower username) (tied_rank (most_common total))

/-- user_rank_by_line_type(username, reg). -/
def user_rank_by_line_type (username : Str) (reg : Reg) (todayLog : Str)
    (files : List LogFile) (cache : Cache) : Except Err (Option (Nat × Nat)) :=
  (chat_rank_counts reg todayLog files cache).map (user_rank_on_total username)

/-- The grouping core of top_n_rank_by_line_type on an aggregated total:
truncate the descending-sorted entries to at most n entries first
(most_common(n)), then group the truncated list by count and rank the
groups. -/
def top_n_on_total (total : Counter) (n : Nat) : List (Nat × Nat × List (Str × Nat)) :=
  tied_rank ((most_common total).take n)

/-- The decimal digits of a rank or count, as printed. -/
def natStr (n : Nat) : Str := (Nat.repr n).data

/-- One output line of top_n_rank_by_line_type: the rank, a dot and a
space, the comma-joined usernames of the group, and the count in
parentheses. -/
def formatGroup (g : Nat × Nat × List (Str × Nat)) : Str :=
  natStr g.1 ++ ". ".data ++ (List.intercalate ", ".data (g.2.2.map Prod.fst))
    ++ " (".data ++ natStr g.2.1 ++ ")".data

/-- The ranked groups of top_n_rank_by_line_type(reg, n) before
formatting. -/
def top_n_groups (reg : Reg) (n : Nat) (todayLog : Str) (files : List LogFile)
    (cache : Cache) : Except Err (List (Nat × Nat × List (Str × Nat))) :=
  (chat_rank_counts reg todayLog files cache).map (fun t => top_n_on_total t n)

/-- top_n_rank_by_line_type(reg, n): the formatted listing lines. -/
def top_n_rank_by_line_type (reg : Reg) (n : Nat) (todayLog : Str)
    (files : List LogFile) (cache : Cache) : Except Err (List Str) :=
  (top_n_groups reg n todayLog files cache).map (List.map formatGroup)

/-- lin_regr(x, y): closed-form ordinary least squares. The Python code
computes the intercept b from the sums, dividing by the denominator
n * sum(x*x) - sum(x)^2, then the slope a, dividing by sum(x*x); each
division raises ZeroDivisionError when its denominator is zero, which
is modelled as none. Arithmetic is modelled with exact rationals. -/
def lin_regr (x y : List ℚ) : Option (ℚ × ℚ) :=
  let sumX := x.sum
  let sumXX := (x.map (fun xi => xi * xi)).sum
  let sumY := y.sum
  let sumXY := ((x.zip y).map (fun p => p.1 * p.2)).sum
  let d1 := (x.length : ℚ) * sumXX - sumX * sumX
  if d1 = 0 then none
  else
    let b := (sumY * sumXX - sumX * sumXY) / d1
    if sumXX = 0 then none
    else some ((sumXY - b * sumX) / sumXX, b)

/-- Outcome of the fitting stage of cmd_chatplot: the user-facing
insufficient-data message, a fitted slope and intercept, or an
uncaught exception propagating out of lin_regr. -/
inductive FitOutcome where
  | insufficientData
  | fitted (slope intercept : ℚ)
  | exn
deriving DecidableEq

/-- The fitting stage of cmd_chatplot: fewer than two collected points
returns the need-at-least-2-days message; otherwise lin_regr runs, and
nothing catches an exception it raises. -/
def chatplotFit (x y : List ℚ) : FitOutcome :=
  if x.length < 2 then .insufficientData
  else
    match lin_regr x y with
    | none => .exn
    | some (a, b) => .fitted a b

/-- The series-collection loop of cmd_chatplot. For each non-today file
in chronological order: compute its chat counts, and append the pair of
the day offset of the file and the count of the user exactly when the
series collected so far is non-empty or that count is non-zero. The
day-offset function models the number of days between the date in the
filename and the log-start date (external date arithmetic). An
assertion error from the per-file count escapes the loop. -/
def buildSeriesGo (user : Str) (dayOff : Str → Int) (acc : List (Int × Nat)) :
    List LogFile → Except Err (List (Int × Nat))
  | [] => .ok acc
  | f :: rest =>
      match counts_per_file .chatLog f.2 with
      | .error e => .error e
      | .ok counts =>
          let c := countOf counts user
          if acc ≠ [] ∨ c ≠ 0 then
            buildSeriesGo user dayOff (acc ++ [(dayOff f.1, c)]) rest
          else buildSeriesGo user dayOff acc rest

/-- The daily series of cmd_chatplot for one user over the given
chronologically ordered non-today files. -/
def buildSeries (user : Str) (dayOff : Str → Int) (files : List LogFile) :
    Except Err (List (Int × Nat)) :=
  buildSeriesGo user dayOff [] files

/-- The shared bonk core only returns a poster name that consumed at
least one character. -/
theorem bonkCore_ne_nil (l : Line) (u : Str) (rest : Line)
    (h : bonkCore l = some (u, rest)) : u ≠ [] := by
  simp only [bonkCore] at h
  split at h
  · split at h
    · exact absurd h (by simp)
    · next hne =>
        split at h
        · simp only [Option.some.injEq, Prod.mk.injEq] at h
          exact h.1 ▸ hne
        · exact absurd h (by simp)
  · exact absurd h (by simp)

/-- Every matcher capture is non-empty: each capturing group of the
three patterns consumes at least one character. This is the invariant
behind the defensive assert on the extracted username. -/
theorem matchUser_ne_nil (reg : Reg) (l : Line) (u : Str)
    (h : matchUser reg l = some u) : u ≠ [] := by
  cases reg <;> simp only [matchUser] at h
  case chatLog =>
    simp only [chatUser] at h
    split at h
    · split at h
      · exact absurd h (by simp)
      · next hne =>
          split at h
          · exact absurd h (by simp)
          · simp only [Option.some.injEq] at h
            exact h ▸ hne
    · split at h
      · exact absurd h (by simp)
      · next hne =>
          simp only [Option.some.injEq] at h
          exact h ▸ hne
    · exact absurd h (by simp)
  case bonker =>
    simp only [bonkerUser] at h
    split at h
    · next u' heq =>
        simp only [Option.some.injEq] at h
        exact h ▸ bonkCore_ne_nil l u' [] heq
    · next u' c cs heq =>
        split at h
        · exact absurd h (by simp)
        · simp only [Option.some.injEq] at h
          exact h ▸ bonkCore_ne_nil l u' (c :: cs) heq
    · exact absurd h (by simp)
  case bonked =>
    simp only [bonkedUser] at h
    split at h
    · split at h
      · exact absurd h (by simp)
      · next hne =>
          simp only [Option.some.injEq] at h
          exact h ▸ hne
    · exact absurd h (by simp)

-- Basic sanity examples of the matcher embedding.
example : matchUser .chatLog "[12:00:01] <brynp> hello there".data = some "brynp".data := by decide
example : matchUser .chatLog "[12:00:01] * brynp waves".data = some "brynp".data := by decide
example : matchUser .chatLog "hello".data = none := by decide
example : matchUser .bonker "[12:00] <alice> !bonk @bob".data = some "alice".data := by decide
example : matchUser .bonked "[12:00] <alice> !bonk @bob".data = some "bob".data := by decide
example : matchUser .bonked "[12:00] <alice> !bonk bob".data = some "bob".data := by decide
example : matchUser .bonker "[12:00] <alice> !bonkers".data = none := by decide
example : matchUser .bonked "[12:00] <alice> !bonk".data = none := by decide
example : counts_per_file .chatLog ["[1] <Foo> hi".data, "[2] <foo> yo".data]
    = .ok [("foo".data, 2)] := by decide

/-- Sum of a constant list of rationals. -/
theorem sum_all_eq (x : List ℚ) (c : ℚ) (h : ∀ a ∈ x, a = c) :
    x.sum = (x.length : ℚ) * c := by
  induction x with
  | nil => simp
  | cons a t ih =>
      have ha : a = c := h a (by simp)
      have ht : t.sum = (t.length : ℚ) * c := ih (fun b hb => h b (by simp [hb]))
      simp [ha, ht]
      ring

/-- Sum of squares of a constant list of rationals. -/
theorem sumsq_all_eq (x : List ℚ) (c : ℚ) (h : ∀ a ∈ x, a = c) :
    (x.map (fun xi => xi * xi)).sum = (x.length : ℚ) * (c * c) := by
  induction x with
  | nil => simp
  | cons a t ih =>
      have ha : a = c := h a (by simp)
      have ht := ih (fun b hb => h b (by simp [hb]))
      simp [ha, ht]
      ring

/-- Claim C1: on the counts a=5, b=5, c=3, tie-aware ranking produces
exactly two groups: group 1 with count 5 holding a and b, and group 2
with count 3 holding c; looking up a, b and c confirms that a and b get
rank 1 (not 2) and c gets rank 2 (not 3). -/
theorem chatrank_c1 :
    tied_rank (most_common [("a".data, 5), ("b".data, 5), ("c".data, 3)])
      = [(1, 5, [("a".data, 5), ("b".data, 5)]), (2, 3, [("c".data, 3)])]
    ∧ user_rank_on_total "a".data [("a".data, 5), ("b".data, 5), ("c".data, 3)] = some (1, 5)
    ∧ user_rank_on_total "b".data [("a".data, 5), ("b".data, 5), ("c".data, 3)] = some (1, 5)
    ∧ user_rank_on_total "c".data [("a".data, 5), ("b".data, 5), ("c".data, 3)] = some (2, 3) := by
  decide

/-- Counterexample to claim C2 as stated: with the chat-message matcher
CHAT_LOG_RE, a line that does not match the pattern is not silently
skipped; the assert that the matcher is not CHAT_LOG_RE fails and an
AssertionError escapes counts_per_file. -/
theorem chatrank_c2_counterexample :
    counts_per_file .chatLog ["hello".data] = .error .assertionFailed := by
  decide

/-- Claim C2 amended: for the bonk-issued and bonk-received matchers a
non-matching line is silently skipped, contributing no count and no
error; for the chat-message matcher a non-matching line fails the
defensive assert that every log line is a chat line, raising an
AssertionError; and the assert on the extracted username never fires,
since a chat-message match always captures a non-empty username. -/
theorem chatrank_c2_amended :
    (∀ (reg : Reg) (l : Line) (ls : List Line) (counts : Counter),
        reg ≠ .chatLog → matchUser reg l = none →
        countsGo reg (l :: ls) counts = countsGo reg ls counts)
    ∧ (∀ (l : Line) (ls : List Line) (counts : Counter),
        matchUser .chatLog l = none →
        countsGo .chatLog (l :: ls) counts = .error .assertionFailed)
    ∧ (∀ (l : Line) (u : Str), matchUser .chatLog l = some u → u ≠ []) := by
  refine ⟨?_, ?_, ?_⟩
  · intro reg l ls counts hreg hm
    simp [countsGo, hm, hreg]
  · intro l ls counts hm
    simp [countsGo, hm]
  · intro l u h
    exact matchUser_ne_nil .chatLog l u h

/-- Witness for the amended claim C2: concrete instances of all three
conjuncts, with every hypothesis discharged by evaluation. -/
theorem chatrank_c2_witness :
    countsGo .bonker ("hello".data :: []) [] = countsGo .bonker [] []
    ∧ countsGo .chatLog ("hello".data :: []) [] = .error .assertionFailed
    ∧ "Foo".data ≠ [] :=
  ⟨chatrank_c2_amended.1 .bonker "hello".data [] [] (by decide) (by decide),
   chatrank_c2_amended.2.1 "hello".data [] [] (by decide),
   chatrank_c2_amended.2.2 "[1] <Foo> hi".data "Foo".data (by decide)⟩

/-- Claim C3: top-N truncates the descending-sorted entries to n raw
entries before grouping ties: on counts 5,5,5,3 with n = 2 the result
is a single group at rank 1 holding only the first two of the three
tied users, and its formatted output is the single line for that
group. -/
theorem chatrank_c3 :
    top_n_on_total [("uu".data, 5), ("vv".data, 5), ("ww".data, 5), ("zz".data, 3)] 2
      = [(1, 5, [("uu".data, 5), ("vv".data, 5)])]
    ∧ (top_n_on_total [("uu".data, 5), ("vv".data, 5), ("ww".data, 5), ("zz".data, 3)] 2).map
        formatGroup = ["1. uu, vv (5)".data] := by
  decide

/-- Counterexample to claim C6 as stated: on a series whose day-offsets
all coincide, lin_regr does not report a user-facing degenerate-fit
message; the closed-form denominator is zero and the resulting division
raises ZeroDivisionError, which nothing catches, so the fitting stage
of cmd_chatplot ends in an uncaught exception. -/
theorem chatrank_c6_counterexample :
    chatplotFit [2, 2] [1, 1] = .exn ∧ lin_regr [2, 2] [1, 1] = none := by
  constructor
  · norm_num [chatplotFit, lin_regr]
  · norm_num [lin_regr]

/-- Claim C6 amended: for every input series whose day-offsets all
coincide, the closed-form denominator is zero and lin_regr fails with
an uncaught ZeroDivisionError (modelled as none) instead of returning a
numeric result; no user-facing degenerate-fit message exists in the
code. -/
theorem chatrank_c6_amended (x y : List ℚ) (c : ℚ) (hall : ∀ a ∈ x, a = c) :
    lin_regr x y = none := by
  have hs := sum_all_eq x c hall
  have hsq := sumsq_all_eq x c hall
  simp only [lin_regr, hs, hsq]
  rw [if_pos (by ring)]

/-- Witness for the amended claim C6 at the concrete degenerate series
with day-offsets 2, 2. -/
theorem chatrank_c6_witness :
    (∀ a ∈ ([2, 2] : List ℚ), a = (2 : ℚ)) ∧ lin_regr [2, 2] [1, 1] = none :=
  ⟨by simp, chatrank_c6_amended [2, 2] [1, 1] 2 (by simp)⟩

/-- Claim C7: lin_regr is the closed-form least-squares fit: on the
series (0,1), (1,2), (2,3), (3,4) it returns slope 1 and intercept 1
(the float computation at this input is exact, so the rational model
agrees with it exactly); and with fewer than two collected points
cmd_chatplot's fitting stage returns the insufficient-data message
instead of fitting. -/
theorem chatrank_c7 :
    lin_regr [0, 1, 2, 3] [1, 2, 3, 4] = some (1, 1)
    ∧ ∀ x y : List ℚ, x.length < 2 → chatplotFit x y = .insufficientData := by
  constructor
  · norm_num [lin_regr]
  · intro x y h
    simp [chatplotFit, h]

/-- Witness for claim C7 at a one-point series. -/
theorem chatrank_c7_witness :
    ([(5 : ℚ)].length < 2) ∧ chatplotFit [(5 : ℚ)] [(3 : ℚ)] = .insufficientData :=
  ⟨by decide, chatrank_c7.2 [(5 : ℚ)] [(3 : ℚ)] (by decide)⟩

/-- Claim C9: username handling is case-insensitive end to end: two
lines of one file whose extracted usernames are Foo and foo increment
the single count key foo, and user_rank_by_line_type lowercases its
lookup argument, so looking up Foo and looking up foo always agree. -/
theorem chatrank_c9 :
    counts_per_file .chatLog ["[1] <Foo> hi".data, "[2] <foo> yo".data]
      = .ok [("foo".data, 2)]
    ∧ ∀ (reg : Reg) (todayLog : Str) (files : List LogFile) (cache : Cache),
        user_rank_by_line_type "Foo".data reg todayLog files cache
          = user_rank_by_line_type "foo".data reg todayLog files cache := by
  refine ⟨by decide, ?_⟩
  intro reg todayLog files cache
  have h : lower "Foo".data = lower "foo".data := by decide
  have h2 : user_rank_on_total "Foo".data = user_rank_on_total "foo".data := by
    funext total
    simp only [user_rank_on_total, h]
  simp only [user_rank_by_line_type, h2]

/-- Once the collected series is non-empty, every remaining file
contributes its pair unconditionally. -/
theorem buildSeriesGo_nonempty (user : Str) (dayOff : Str → Int)
    (cf : LogFile → Counter) :
    ∀ (files : List LogFile) (acc : List (Int × Nat)), acc ≠ [] →
    (∀ f ∈ files, counts_per_file .chatLog f.2 = .ok (cf f)) →
    buildSeriesGo user dayOff acc files
      = .ok (acc ++ files.map (fun f => (dayOff f.1, countOf (cf f) user))) := by
  intro files
  induction files with
  | nil => intro acc hacc hok; simp [buildSeriesGo]
  | cons f rest ih =>
      intro acc hacc hok
      have hf : counts_per_file .chatLog f.2 = .ok (cf f) := hok f (by simp)
      have hrest : ∀ g ∈ rest, counts_per_file .chatLog g.2 = .ok (cf g) :=
        fun g hg => hok g (by simp [hg])
      simp only [buildSeriesGo, hf]
      rw [if_pos (Or.inl hacc)]
      rw [ih (acc ++ [(dayOff f.1, countOf (cf f) user)]) (by simp) hrest]
      simp

/-- Claim C8: over every chronologically ordered list of non-today log
files whose per-file chat counts succeed, the daily series of
cmd_chatplot is exactly the files after the leading run of zero-count
days, each mapped to its day-offset and count pair: leading zero-count
days before the first appearance of the user are omitted, and every
later file, including zero-count ones, is included. -/
theorem chatrank_c8 (user : Str) (dayOff : Str → Int) (files : List LogFile)
    (cf : LogFile → Counter)
    (hok : ∀ f ∈ files, counts_per_file .chatLog f.2 = .ok (cf f)) :
    buildSeries user dayOff files
      = .ok ((files.dropWhile (fun f => countOf (cf f) user == 0)).map
          (fun f => (dayOff f.1, countOf (cf f) user))) := by
  unfold buildSeries
  induction files with
  | nil => simp [buildSeriesGo]
  | cons f rest ih =>
      have hf : counts_per_file .chatLog f.2 = .ok (cf f) := hok f (by simp)
      have hrest : ∀ g ∈ rest, counts_per_file .chatLog g.2 = .ok (cf g) :=
        fun g hg => hok g (by simp [hg])
      simp only [buildSeriesGo, hf]
      by_cases hz : countOf (cf f) user = 0
      · rw [if_neg (by simp [hz])]
        rw [List.dropWhile_cons_of_pos (by simp [hz])]
        exact ih hrest
      · rw [if_pos (Or.inr hz)]
        rw [List.dropWhile_cons_of_neg (by simp [hz])]
        simp only [List.nil_append]
        rw [buildSeriesGo_nonempty user dayOff cf rest
          [(dayOff f.1, countOf (cf f) user)] (by simp) hrest]
        simp

/-- Concrete directory for the series witness: an empty day, a day with
one chat line by the user, and another empty day. -/
def seriesFilesEx : List LogFile :=
  [("a.log".data, []),
   ("b.log".data, ["[1] <u> hi".data]),
   ("c.log".data, [])]

/-- The per-file counts of the series witness directory. -/
def seriesCountsEx (f : LogFile) : Counter :=
  if f.1 = "b.log".data then [("u".data, 1)] else []

/-- Witness for claim C8: three concrete files, with a zero-count day
before the first appearance of the user and a zero-count day after it. -/
theorem chatrank_c8_witness :
    (∀ f ∈ seriesFilesEx, counts_per_file .chatLog f.2 = .ok (seriesCountsEx f))
    ∧ buildSeries "u".data (fun s => (s.length : Int)) seriesFilesEx
      = .ok (((seriesFilesEx.dropWhile
            (fun f => countOf (seriesCountsEx f) "u".data == 0)).map
          (fun f => (((fun (s : Str) => (s.length : Int)) f.1),
            countOf (seriesCountsEx f) "u".data)))) :=
  ⟨by decide,
   chatrank_c8 "u".data (fun s => (s.length : Int)) seriesFilesEx seriesCountsEx
     (by decide)⟩

/-- Incrementing any key raises the total count by exactly one. -/
theorem counterSum_incr (c : Counter) (u : Str) :
    counterSum (incr c u) = counterSum c + 1 := by
  induction c with
  | nil => rfl
  | cons p rest ih =>
      obtain ⟨v, n⟩ := p
      by_cases h : v = u
      · simp [incr, h, counterSum]
        ring
      · simp [incr, h, counterSum] at ih ⊢
        omega

/-- For the bonk matchers the per-file count never raises, and its
total equals the number of lines matching the pattern. -/
theorem countsGo_sum (reg : Reg) (hreg : reg ≠ .chatLog) :
    ∀ (ls : List Line) (counts : Counter), ∃ c',
      countsGo reg ls counts = .ok c'
      ∧ counterSum c'
          = counterSum counts + ls.countP (fun l => (matchUser reg l).isSome) := by
  intro ls
  induction ls with
  | nil => intro counts; exact ⟨counts, rfl, by simp⟩
  | cons l ls ih =>
      intro counts
      cases hm : matchUser reg l with
      | none =>
          obtain ⟨c', hgo, hsum⟩ := ih counts
          refine ⟨c', ?_, ?_⟩
          · simp [countsGo, hm, hreg, hgo]
          · rw [hsum, List.countP_cons]
            simp [hm]
      | some u =>
          have hne : u ≠ [] := matchUser_ne_nil reg l u hm
          obtain ⟨c', hgo, hsum⟩ := ih (incr counts (lower u))
          refine ⟨c', ?_, ?_⟩
          · simp [countsGo, hm, hne, hgo]
          · rw [hsum, counterSum_incr, List.countP_cons]
            simp [hm]
            omega

/-- Claim C10: every line matched by the bonk-received pattern is also
matched by the bonk-issued pattern (the received pattern extends the
issued pattern with a mandatory space, which also satisfies the word
boundary of the issued pattern), and consequently over any fixed list
of log lines the total of counted bonk-received events never exceeds
the total of counted bonk-issued events. -/
theorem chatrank_c10 (lines : List Line) :
    (∀ (l : Line) (t : Str), matchUser .bonked l = some t →
        ∃ p, matchUser .bonker l = some p)
    ∧ ∃ cb ck, counts_per_file .bonked lines = .ok cb
        ∧ counts_per_file .bonker lines = .ok ck
        ∧ counterSum cb ≤ counterSum ck := by
  have himp : ∀ (l : Line) (t : Str), matchUser .bonked l = some t →
      ∃ p, matchUser .bonker l = some p := by
    intro l t h
    simp only [matchUser, bonkedUser] at h
    split at h
    · next u rest heq =>
        have hw : isWordChar ' ' = false := by decide
        exact ⟨u, by simp [matchUser, bonkerUser, heq, hw]⟩
    · exact absurd h (by simp)
  refine ⟨himp, ?_⟩
  obtain ⟨cb, hb, hsb⟩ := countsGo_sum .bonked (by decide) lines []
  obtain ⟨ck, hk, hsk⟩ := countsGo_sum .bonker (by decide) lines []
  refine ⟨cb, ck, hb, hk, ?_⟩
  rw [hsb, hsk]
  have hmono : lines.countP (fun l => (matchUser .bonked l).isSome)
      ≤ lines.countP (fun l => (matchUser .bonker l).isSome) := by
    apply List.countP_mono_left
    intro l _ hp
    obtain ⟨t, ht⟩ := Option.isSome_iff_exists.mp hp
    obtain ⟨p, hpm⟩ := himp l t ht
    simp [hpm]
  simpa using hmono

/-- Witness for claim C10 at a concrete bonk line. -/
theorem chatrank_c10_witness :
    matchUser .bonked "[1] <alice> !bonk @bob".data = some "bob".data
    ∧ (∃ p, matchUser .bonker "[1] <alice> !bonk @bob".data = some p)
    ∧ ∃ cb ck, counts_per_file .bonked ["[1] <alice> !bonk @bob".data] = .ok cb
        ∧ counts_per_file .bonker ["[1] <alice> !bonk @bob".data] = .ok ck
        ∧ counterSum cb ≤ counterSum ck :=
  ⟨by decide,
   (chatrank_c10 ["[1] <alice> !bonk @bob".data]).1
     "[1] <alice> !bonk @bob".data "bob".data (by decide),
   (chatrank_c10 ["[1] <alice> !bonk @bob".data]).2⟩

/-- Stable insertion adds exactly one entry. -/
theorem insertByCount_length (p : Str × Nat) (l : List (Str × Nat)) :
    (insertByCount p l).length = l.length + 1 := by
  induction l with
  | nil => rfl
  | cons q qs ih =>
      simp only [insertByCount]
      split <;> simp [ih]

/-- The sorted entry list of most_common has one entry per counter key. -/
theorem most_common_length (c : Counter) : (most_common c).length = c.length := by
  suffices h : ∀ acc : List (Str × Nat),
      (c.foldl (fun a p => insertByCount p a) acc).length = c.length + acc.length by
    simpa using h []
  induction c with
  | nil => intro acc; simp
  | cons p rest ih =>
      intro acc
      simp only [List.foldl_cons, List.length_cons]
      rw [ih (insertByCount p acc), insertByCount_length]
      omega

/-- Claim C4: whenever the aggregation succeeds and n is at least the
number of distinct users in the totals, the rank and count reported by
user_rank_by_line_type equal the result of looking the lowercased user
up in the group listing of the untruncated top-n computation: the rank
of the group containing the user, or absence from every group. -/
theorem chatrank_c4 (username : Str) (reg : Reg) (todayLog : Str)
    (files : List LogFile) (cache : Cache) (n : Nat) (total : Counter)
    (gs : List (Nat × Nat × List (Str × Nat)))
    (h1 : chat_rank_counts reg todayLog files cache = .ok total)
    (h2 : total.length ≤ n)
    (h3 : top_n_groups reg n todayLog files cache = .ok gs) :
    user_rank_by_line_type username reg todayLog files cache
      = .ok (findRank (lower username) gs) := by
  have hgs : gs = top_n_on_total total n := by
    unfold top_n_groups at h3
    rw [h1] at h3
    simp only [Except.map, Except.ok.injEq] at h3
    exact h3.symm
  have htake : (most_common total).take n = most_common total :=
    List.take_of_length_le (by rw [most_common_length]; exact h2)
  unfold user_rank_by_line_type
  rw [h1]
  simp only [Except.map, user_rank_on_total, hgs, top_n_on_total, htake]

/-- Concrete directory for the rank agreement witness. -/
def rankFilesEx : List LogFile :=
  [("x.log".data,
    ["[1] <ann> hi".data, "[2] <bob> yo".data, "[3] <ann> re".data])]

/-- The aggregated totals of the rank agreement witness directory. -/
def rankTotalEx : Counter := [("ann".data, 2), ("bob".data, 1)]

/-- The untruncated group listing of the rank agreement witness. -/
def rankGroupsEx : List (Nat × Nat × List (Str × Nat)) :=
  [(1, 2, [("ann".data, 2)]), (2, 1, [("bob".data, 1)])]

/-- Witness for claim C4 on a concrete directory with two users. -/
theorem chatrank_c4_witness :
    chat_rank_counts .chatLog "t.log".data rankFilesEx [] = .ok rankTotalEx
    ∧ rankTotalEx.length ≤ 5
    ∧ top_n_groups .chatLog 5 "t.log".data rankFilesEx [] = .ok rankGroupsEx
    ∧ user_rank_by_line_type "ann".data .chatLog "t.log".data rankFilesEx []
        = .ok (findRank (lower "ann".data) rankGroupsEx) :=
  ⟨by decide, by decide, by decide,
   chatrank_c4 "ann".data .chatLog "t.log".data rankFilesEx [] 5 rankTotalEx
     rankGroupsEx (by decide) (by decide) (by decide)⟩

/-- True when the per-file computation returns without an exception. -/
def exIsOk : Except Err Counter → Bool
  | .ok _ => true
  | .error _ => false

/-- The directory prefix makes the full path injective in the filename. -/
theorem fullPath_inj {a b : Str} (h : fullPath a = fullPath b) : a = b :=
  List.append_cancel_left h

/-- An entry found before an append is still found after it. -/
theorem lookupCache_append_some {cache : Cache} {k : Key} {c : Counter}
    (h : lookupCache cache k = some c) (e : Key × Counter) :
    lookupCache (cache ++ [e]) k = some c := by
  simp only [lookupCache, List.find?_append] at h ⊢
  cases hf : cache.find? (fun en => en.1 = k) with
  | none => rw [hf] at h; exact absurd h (by simp)
  | some en => rw [hf] at h; simp [Option.or, h, hf]

/-- Appending an entry with a different key finds nothing new. -/
theorem lookupCache_append_none {cache : Cache} {k : Key} {e : Key × Counter}
    (h : lookupCache cache k = none) (hne : e.1 ≠ k) :
    lookupCache (cache ++ [e]) k = none := by
  simp only [lookupCache, List.find?_append] at h ⊢
  cases hf : cache.find? (fun en => en.1 = k) with
  | some en => rw [hf] at h; exact absurd h (by simp)
  | none => simp [Option.or, hf, List.find?, hne]

/-- Appending an entry with the key itself makes it found. -/
theorem lookupCache_append_self {cache : Cache} {k : Key} {c : Counter}
    (h : lookupCache cache k = none) :
    lookupCache (cache ++ [(k, c)]) k = some c := by
  simp only [lookupCache, List.find?_append] at h ⊢
  cases hf : cache.find? (fun en => en.1 = k) with
  | some en => rw [hf] at h; exact absurd h (by simp)
  | none => simp [Option.or, hf, List.find?]

/-- stepFile on a cache hit for a non-today file. -/
theorem stepFile_hit {t : Str} {reg : Reg} {cache : Cache} {f : LogFile}
    {c : Counter} (h1 : f.1 ≠ t)
    (h2 : lookupCache cache (fullPath f.1, reg) = some c) :
    stepFile t reg cache f = ⟨cache, [.lookup (fullPath f.1, reg)], .ok c⟩ := by
  simp [stepFile, h1, h2]

/-- stepFile on a cache miss for a non-today file with a successful
computation: compute, then store. -/
theorem stepFile_miss_ok {t : Str} {reg : Reg} {cache : Cache} {f : LogFile}
    {c : Counter} (h1 : f.1 ≠ t)
    (h2 : lookupCache cache (fullPath f.1, reg) = none)
    (h3 : counts_per_file reg f.2 = .ok c) :
    stepFile t reg cache f
      = ⟨cache ++ [((fullPath f.1, reg), c)],
         [.lookup (fullPath f.1, reg), .compute (fullPath f.1, reg),
          .store (fullPath f.1, reg)], .ok c⟩ := by
  simp [stepFile, h1, h2, h3]

/-- stepFile on a cache miss for a non-today file with a raising
computation: the exception escapes and nothing is stored. -/
theorem stepFile_miss_err {t : Str} {reg : Reg} {cache : Cache} {f : LogFile}
    {e : Err} (h1 : f.1 ≠ t)
    (h2 : lookupCache cache (fullPath f.1, reg) = none)
    (h3 : counts_per_file reg f.2 = .error e) :
    stepFile t reg cache f
      = ⟨cache, [.lookup (fullPath f.1, reg), .compute (fullPath f.1, reg)],
         .error e⟩ := by
  simp [stepFile, h1, h2, h3]

/-- stepFile on the today file with a successful computation: a bare
computation, no cache read or write. -/
theorem stepFile_today_ok {t : Str} {reg : Reg} {cache : Cache} {f : LogFile}
    {c : Counter} (h1 : f.1 = t) (h3 : counts_per_file reg f.2 = .ok c) :
    stepFile t reg cache f = ⟨cache, [.compute (fullPath f.1, reg)], .ok c⟩ := by
  simp only [stepFile, h3]
  rw [if_neg (by simp [h1])]

/-- stepFile on the today file with a raising computation. -/
theorem stepFile_today_err {t : Str} {reg : Reg} {cache : Cache} {f : LogFile}
    {e : Err} (h1 : f.1 = t) (h3 : counts_per_file reg f.2 = .error e) :
    stepFile t reg cache f
      = ⟨cache, [.compute (fullPath f.1, reg)], .error e⟩ := by
  simp only [stepFile, h3]
  rw [if_neg (by simp [h1])]

/-- runPass unfolded on a cache hit. -/
theorem runPass_cons_hit {t : Str} {reg : Reg} {total : Counter} {cache : Cache}
    {f : LogFile} {rest : List LogFile} {c : Counter} (h1 : f.1 ≠ t)
    (h2 : lookupCache cache (fullPath f.1, reg) = some c) :
    runPass t reg total cache (f :: rest)
      = ⟨(runPass t reg (counterUpdate total c) cache rest).cache,
         .lookup (fullPath f.1, reg)
           :: (runPass t reg (counterUpdate total c) cache rest).events,
         (runPass t reg (counterUpdate total c) cache rest).result⟩ := by
  simp [runPass, stepFile_hit h1 h2]

/-- runPass unfolded on a successful cache miss. -/
theorem runPass_cons_miss_ok {t : Str} {reg : Reg} {total : Counter}
    {cache : Cache} {f : LogFile} {rest : List LogFile} {c : Counter}
    (h1 : f.1 ≠ t) (h2 : lookupCache cache (fullPath f.1, reg) = none)
    (h3 : counts_per_file reg f.2 = .ok c) :
    runPass t reg total cache (f :: rest)
      = ⟨(runPass t reg (counterUpdate total c)
            (cache ++ [((fullPath f.1, reg), c)]) rest).cache,
         .lookup (fullPath f.1, reg) :: .compute (fullPath f.1, reg)
           :: .store (fullPath f.1, reg)
           :: (runPass t reg (counterUpdate total c)
                (cache ++ [((fullPath f.1, reg), c)]) rest).events,
         (runPass t reg (counterUpdate total c)
            (cache ++ [((fullPath f.1, reg), c)]) rest).result⟩ := by
  simp [runPass, stepFile_miss_ok h1 h2 h3]

/-- runPass unfolded on a raising cache miss. -/
theorem runPass_cons_miss_err {t : Str} {reg : Reg} {total : Counter}
    {cache : Cache} {f : LogFile} {rest : List LogFile} {e : Err}
    (h1 : f.1 ≠ t) (h2 : lookupCache cache (fullPath f.1, reg) = none)
    (h3 : counts_per_file reg f.2 = .error e) :
    runPass t reg total cache (f :: rest)
      = ⟨cache, [.lookup (fullPath f.1, reg), .compute (fullPath f.1, reg)],
         .error e⟩ := by
  simp [runPass, stepFile_miss_err h1 h2 h3]

/-- runPass unfolded on the today file with a successful computation. -/
theorem runPass_cons_today_ok {t : Str} {reg : Reg} {total : Counter}
    {cache : Cache} {f : LogFile} {rest : List LogFile} {c : Counter}
    (h1 : f.1 = t) (h3 : counts_per_file reg f.2 = .ok c) :
    runPass t reg total cache (f :: rest)
      = ⟨(runPass t reg (counterUpdate total c) cache rest).cache,
         .compute (fullPath f.1, reg)
           :: (runPass t reg (counterUpdate total c) cache rest).events,
         (runPass t reg (counterUpdate total c) cache rest).result⟩ := by
  simp [runPass, stepFile_today_ok h1 h3]

/-- runPass unfolded on the today file with a raising computation. -/
theorem runPass_cons_today_err {t : Str} {reg : Reg} {total : Counter}
    {cache : Cache} {f : LogFile} {rest : List LogFile} {e : Err}
    (h1 : f.1 = t) (h3 : counts_per_file reg f.2 = .error e) :
    runPass t reg total cache (f :: rest)
      = ⟨cache, [.compute (fullPath f.1, reg)], .error e⟩ := by
  simp [runPass, stepFile_today_err h1 h3]

/-- The cache only grows during a pass: an entry found before is found
after, with the same value. -/
theorem runPass_mono (t : Str) (reg : Reg) :
    ∀ (files : List LogFile) (total : Counter) (cache : Cache) (k : Key)
      (c : Counter), lookupCache cache k = some c →
    lookupCache (runPass t reg total cache files).cache k = some c := by
  intro files
  induction files with
  | nil => intro total cache k c h; simpa [runPass] using h
  | cons f rest ih =>
      intro total cache k c h
      by_cases h1 : f.1 = t
      · cases h3 : counts_per_file reg f.2 with
        | error e => rw [runPass_cons_today_err h1 h3]; exact h
        | ok cc => rw [runPass_cons_today_ok h1 h3]; exact ih _ _ k c h
      · cases h2 : lookupCache cache (fullPath f.1, reg) with
        | some cc => rw [runPass_cons_hit h1 h2]; exact ih _ _ k c h
        | none =>
            cases h3 : counts_per_file reg f.2 with
            | error e => rw [runPass_cons_miss_err h1 h2 h3]; exact h
            | ok cc =>
                rw [runPass_cons_miss_ok h1 h2 h3]
                exact ih _ _ k c (lookupCache_append_some h _)

/-- No cache-touching event of a pass carries the today path: the today
file is read around the cache, and every cached file has a different
path. -/
theorem runPass_no_today_touch (t : Str) (reg : Reg) :
    ∀ (files : List LogFile) (total : Counter) (cache : Cache),
    ∀ e ∈ (runPass t reg total cache files).events,
      isTouch e = true → (keyOf e).1 ≠ fullPath t := by
  intro files
  induction files with
  | nil => intro total cache e he; simp [runPass] at he
  | cons f rest ih =>
      intro total cache e he htouch
      have hpath : f.1 ≠ t → (fullPath f.1, reg).1 ≠ fullPath t :=
        fun hne hcon => hne (fullPath_inj hcon)
      by_cases h1 : f.1 = t
      · cases h3 : counts_per_file reg f.2 with
        | error e2 =>
            rw [runPass_cons_today_err h1 h3] at he
            simp at he
            rw [he] at htouch
            exact absurd htouch (by simp [isTouch])
        | ok cc =>
            rw [runPass_cons_today_ok h1 h3] at he
            simp at he
            rcases he with he | he
            · rw [he] at htouch
              exact absurd htouch (by simp [isTouch])
            · exact ih _ _ e he htouch
      · cases h2 : lookupCache cache (fullPath f.1, reg) with
        | some cc =>
            rw [runPass_cons_hit h1 h2] at he
            simp at he
            rcases he with he | he
            · rw [he]; exact hpath h1
            · exact ih _ _ e he htouch
        | none =>
            cases h3 : counts_per_file reg f.2 with
            | error e2 =>
                rw [runPass_cons_miss_err h1 h2 h3] at he
                simp at he
                rcases he with he | he <;> (rw [he]; exact hpath h1)
            | ok cc =>
                rw [runPass_cons_miss_ok h1 h2 h3] at he
                simp at he
                rcases he with he | he | he | he
                · rw [he]; exact hpath h1
                · rw [he]; exact hpath h1
                · rw [he]; exact hpath h1
                · exact ih _ _ e he htouch

/-- A key with the today path absent from the cache before a pass is
still absent after it: every store of the pass carries a non-today
path. -/
theorem runPass_today_not_cached (t : Str) (reg : Reg) :
    ∀ (files : List LogFile) (total : Counter) (cache : Cache) (r : Reg),
    lookupCache cache (fullPath t, r) = none →
    lookupCache (runPass t reg total cache files).cache (fullPath t, r) = none := by
  intro files
  induction files with
  | nil => intro total cache r h; simpa [runPass] using h
  | cons f rest ih =>
      intro total cache r h
      by_cases h1 : f.1 = t
      · cases h3 : counts_per_file reg f.2 with
        | error e => rw [runPass_cons_today_err h1 h3]; exact h
        | ok cc => rw [runPass_cons_today_ok h1 h3]; exact ih _ _ r h
      · cases h2 : lookupCache cache (fullPath f.1, reg) with
        | some cc => rw [runPass_cons_hit h1 h2]; exact ih _ _ r h
        | none =>
            cases h3 : counts_per_file reg f.2 with
            | error e => rw [runPass_cons_miss_err h1 h2 h3]; exact h
            | ok cc =>
                rw [runPass_cons_miss_ok h1 h2 h3]
                refine ih _ _ r (lookupCache_append_none h ?_)
                intro hcon
                exact h1 (fullPath_inj (congrArg Prod.fst hcon))

instance : Nonempty Key := ⟨(([] : Str), Reg.chatLog)⟩

/-- No events, no computed keys. -/
theorem computeKeys_nil : computeKeys [] = [] := rfl

/-- A lookup event contributes no computed key. -/
theorem computeKeys_cons_lookup (k : Key) (evs : List CEvent) :
    computeKeys (.lookup k :: evs) = computeKeys evs := rfl

/-- A store event contributes no computed key. -/
theorem computeKeys_cons_store (k : Key) (evs : List CEvent) :
    computeKeys (.store k :: evs) = computeKeys evs := rfl

/-- A compute event contributes its key. -/
theorem computeKeys_cons_compute (k : Key) (evs : List CEvent) :
    computeKeys (.compute k :: evs) = k :: computeKeys evs := rfl

/-- Counting a key in a compute-key list headed by a different key. -/
theorem count_cons_ne {k k2 : Key} (l : List Key) (h : k2 ≠ k) :
    List.count k (k2 :: l) = List.count k l := by
  simp [List.count_cons, h]

/-- A non-today key already in the cache is never recomputed during a
pass: every lookup of it hits. -/
theorem runPass_hit_no_compute (t : Str) (reg : Reg) :
    ∀ (files : List LogFile) (total : Counter) (cache : Cache) (k : Key)
      (c : Counter), k.1 ≠ fullPath t → lookupCache cache k = some c →
    List.count k (computeKeys (runPass t reg total cache files).events) = 0 := by
  intro files
  induction files with
  | nil => intro total cache k c hk h; simp [runPass, computeKeys]
  | cons f rest ih =>
      intro total cache k c hk h
      by_cases h1 : f.1 = t
      · have hne : (fullPath f.1, reg) ≠ k := by
          intro hcon; apply hk; rw [← hcon, h1]
        cases h3 : counts_per_file reg f.2 with
        | error e =>
            rw [runPass_cons_today_err h1 h3]
            simp only [computeKeys_cons_compute, computeKeys_nil]
            rw [count_cons_ne _ hne]
            simp
        | ok cc =>
            rw [runPass_cons_today_ok h1 h3]
            simp only [computeKeys_cons_compute]
            rw [count_cons_ne _ hne]
            exact ih _ _ k c hk h
      · cases h2 : lookupCache cache (fullPath f.1, reg) with
        | some cc =>
            rw [runPass_cons_hit h1 h2]
            simp only [computeKeys_cons_lookup]
            exact ih _ _ k c hk h
        | none =>
            have hne : (fullPath f.1, reg) ≠ k := by
              intro hcon; rw [hcon] at h2; rw [h2] at h; exact absurd h (by simp)
            cases h3 : counts_per_file reg f.2 with
            | error e =>
                rw [runPass_cons_miss_err h1 h2 h3]
                simp only [computeKeys_cons_lookup, computeKeys_cons_compute,
                  computeKeys_nil]
                rw [count_cons_ne _ hne]
                simp
            | ok cc =>
                rw [runPass_cons_miss_ok h1 h2 h3]
                simp only [computeKeys_cons_lookup, computeKeys_cons_compute,
                  computeKeys_cons_store]
                rw [count_cons_ne _ hne]
                exact ih _ _ k c hk (lookupCache_append_some h _)

/-- Within one pass, every non-today key is computed at most once: a
successful computation is immediately stored, so later lookups of the
key hit, and a failing computation ends the pass. -/
theorem runPass_compute_le_one (t : Str) (reg : Reg) :
    ∀ (files : List LogFile) (total : Counter) (cache : Cache) (k : Key),
    k.1 ≠ fullPath t →
    List.count k (computeKeys (runPass t reg total cache files).events) ≤ 1 := by
  intro files
  induction files with
  | nil => intro total cache k hk; simp [runPass, computeKeys]
  | cons f rest ih =>
      intro total cache k hk
      by_cases h1 : f.1 = t
      · have hne : (fullPath f.1, reg) ≠ k := by
          intro hcon; apply hk; rw [← hcon, h1]
        cases h3 : counts_per_file reg f.2 with
        | error e =>
            rw [runPass_cons_today_err h1 h3]
            simp only [computeKeys_cons_compute, computeKeys_nil]
            rw [count_cons_ne _ hne]
            simp
        | ok cc =>
            rw [runPass_cons_today_ok h1 h3]
            simp only [computeKeys_cons_compute]
            rw [count_cons_ne _ hne]
            exact ih _ _ k hk
      · cases h2 : lookupCache cache (fullPath f.1, reg) with
        | some cc =>
            rw [runPass_cons_hit h1 h2]
            simp only [computeKeys_cons_lookup]
            exact ih _ _ k hk
        | none =>
            cases h3 : counts_per_file reg f.2 with
            | error e =>
                rw [runPass_cons_miss_err h1 h2 h3]
                simp only [computeKeys_cons_lookup, computeKeys_cons_compute,
                  computeKeys_nil]
                by_cases hke : (fullPath f.1, reg) = k
                · simp [List.count_cons, hke]
                · rw [count_cons_ne _ hke]; simp
            | ok cc =>
                rw [runPass_cons_miss_ok h1 h2 h3]
                simp only [computeKeys_cons_lookup, computeKeys_cons_compute,
                  computeKeys_cons_store]
                by_cases hke : (fullPath f.1, reg) = k
                · rw [hke] at h2
                  have hzero := runPass_hit_no_compute t reg rest
                    (counterUpdate total cc) (cache ++ [(k, cc)]) k cc hk
                    (lookupCache_append_self h2)
                  simp [List.count_cons, hke, hzero]
                · rw [count_cons_ne _ hke]
                  exact ih _ _ k hk

/-- When every file of a pass computes successfully, a non-today key
that was computed during the pass ends the pass stored in the cache. -/
theorem runPass_computed_stored (t : Str) (reg : Reg) :
    ∀ (files : List LogFile) (total : Counter) (cache : Cache) (k : Key),
    (∀ f ∈ files, exIsOk (counts_per_file reg f.2) = true) →
    k.1 ≠ fullPath t →
    1 ≤ List.count k (computeKeys (runPass t reg total cache files).events) →
    ∃ c, lookupCache (runPass t reg total cache files).cache k = some c := by
  intro files
  induction files with
  | nil => intro total cache k hok hk hcnt; simp [runPass, computeKeys] at hcnt
  | cons f rest ih =>
      intro total cache k hok hk hcnt
      have hokf : exIsOk (counts_per_file reg f.2) = true := hok f (by simp)
      have hokr : ∀ g ∈ rest, exIsOk (counts_per_file reg g.2) = true :=
        fun g hg => hok g (by simp [hg])
      by_cases h1 : f.1 = t
      · have hne : (fullPath f.1, reg) ≠ k := by
          intro hcon; apply hk; rw [← hcon, h1]
        cases h3 : counts_per_file reg f.2 with
        | error e => rw [h3] at hokf; exact absurd hokf (by simp [exIsOk])
        | ok cc =>
            rw [runPass_cons_today_ok h1 h3] at hcnt ⊢
            simp only [computeKeys_cons_compute] at hcnt
            rw [count_cons_ne _ hne] at hcnt
            exact ih _ _ k hokr hk hcnt
      · cases h2 : lookupCache cache (fullPath f.1, reg) with
        | some cc =>
            rw [runPass_cons_hit h1 h2] at hcnt ⊢
            simp only [computeKeys_cons_lookup] at hcnt
            exact ih _ _ k hokr hk hcnt
        | none =>
            cases h3 : counts_per_file reg f.2 with
            | error e => rw [h3] at hokf; exact absurd hokf (by simp [exIsOk])
            | ok cc =>
                rw [runPass_cons_miss_ok h1 h2 h3] at hcnt ⊢
                by_cases hke : (fullPath f.1, reg) = k
                · refine ⟨cc, ?_⟩
                  rw [← hke]
                  exact runPass_mono t reg rest _ _ _ cc
                    (lookupCache_append_self h2)
                · simp only [computeKeys_cons_lookup, computeKeys_cons_compute,
                    computeKeys_cons_store] at hcnt
                  rw [count_cons_ne _ hke] at hcnt
                  exact ih _ _ k hokr hk hcnt

/-- When every file of a pass computes successfully, every non-today
file of the pass ends the pass with its counts stored in the cache. -/
theorem runPass_file_cached (t : Str) (reg : Reg) :
    ∀ (files : List LogFile) (total : Counter) (cache : Cache) (f : LogFile),
    (∀ g ∈ files, exIsOk (counts_per_file reg g.2) = true) →
    f ∈ files → f.1 ≠ t →
    ∃ c, lookupCache (runPass t reg total cache files).cache
      (fullPath f.1, reg) = some c := by
  intro files
  induction files with
  | nil => intro total cache f hok hf; simp at hf
  | cons g rest ih =>
      intro total cache f hok hf hft
      have hokg : exIsOk (counts_per_file reg g.2) = true := hok g (by simp)
      have hokr : ∀ g2 ∈ rest, exIsOk (counts_per_file reg g2.2) = true :=
        fun g2 hg => hok g2 (by simp [hg])
      rcases List.mem_cons.mp hf with hfg | hfr
      · subst hfg
        cases h2 : lookupCache cache (fullPath f.1, reg) with
        | some cc =>
            rw [runPass_cons_hit hft h2]
            exact ⟨cc, runPass_mono t reg rest _ _ _ cc h2⟩
        | none =>
            cases h3 : counts_per_file reg f.2 with
            | error e => rw [h3] at hokg; exact absurd hokg (by simp [exIsOk])
            | ok cc =>
                rw [runPass_cons_miss_ok hft h2 h3]
                exact ⟨cc, runPass_mono t reg rest _ _ _ cc
                  (lookupCache_append_self h2)⟩
      · by_cases h1 : g.1 = t
        · cases h3 : counts_per_file reg g.2 with
          | error e => rw [h3] at hokg; exact absurd hokg (by simp [exIsOk])
          | ok cc =>
              rw [runPass_cons_today_ok h1 h3]
              exact ih _ _ f hokr hfr hft
        · cases h2 : lookupCache cache (fullPath g.1, reg) with
          | some cc =>
              rw [runPass_cons_hit h1 h2]
              exact ih _ _ f hokr hfr hft
          | none =>
              cases h3 : counts_per_file reg g.2 with
              | error e => rw [h3] at hokg; exact absurd hokg (by simp [exIsOk])
              | ok cc =>
                  rw [runPass_cons_miss_ok h1 h2 h3]
                  exact ih _ _ f hokr hfr hft

/-- Computed keys of a concatenated trace. -/
theorem computeKeys_append (a b : List CEvent) :
    computeKeys (a ++ b) = computeKeys a ++ computeKeys b :=
  List.filterMap_append a b _

/-- The cache only grows over a process lifetime. -/
theorem runLife_mono (t : Str) :
    ∀ (passes : List (Reg × List LogFile)) (cache : Cache) (k : Key)
      (c : Counter), lookupCache cache k = some c →
    lookupCache (runLife t cache passes).1 k = some c := by
  intro passes
  induction passes with
  | nil => intro cache k c h; simpa [runLife] using h
  | cons pr rest ih =>
      obtain ⟨reg, files⟩ := pr
      intro cache k c h
      simp only [runLife]
      exact ih _ k c (runPass_mono t reg files [] cache k c h)

/-- No cache-touching event of a whole process lifetime carries the
today path. -/
theorem runLife_no_today_touch (t : Str) :
    ∀ (passes : List (Reg × List LogFile)) (cache : Cache),
    ∀ e ∈ (runLife t cache passes).2,
      isTouch e = true → (keyOf e).1 ≠ fullPath t := by
  intro passes
  induction passes with
  | nil => intro cache e he; simp [runLife] at he
  | cons pr rest ih =>
      obtain ⟨reg, files⟩ := pr
      intro cache e he htouch
      simp only [runLife] at he
      rcases List.mem_append.mp he with he | he
      · exact runPass_no_today_touch t reg files [] cache e he htouch
      · exact ih _ e he htouch

/-- A key with the today path absent from the cache stays absent over a
whole process lifetime. -/
theorem runLife_today_not_cached (t : Str) :
    ∀ (passes : List (Reg × List LogFile)) (cache : Cache) (r : Reg),
    lookupCache cache (fullPath t, r) = none →
    lookupCache (runLife t cache passes).1 (fullPath t, r) = none := by
  intro passes
  induction passes with
  | nil => intro cache r h; simpa [runLife] using h
  | cons pr rest ih =>
      obtain ⟨reg, files⟩ := pr
      intro cache r h
      simp only [runLife]
      exact ih _ r (runPass_today_not_cached t reg files [] cache r h)

/-- A non-today key already in the cache is never computed again for
the rest of the process lifetime. -/
theorem runLife_hit_no_compute (t : Str) :
    ∀ (passes : List (Reg × List LogFile)) (cache : Cache) (k : Key)
      (c : Counter), k.1 ≠ fullPath t → lookupCache cache k = some c →
    List.count k (computeKeys (runLife t cache passes).2) = 0 := by
  intro passes
  induction passes with
  | nil => intro cache k c hk h; simp [runLife, computeKeys]
  | cons pr rest ih =>
      obtain ⟨reg, files⟩ := pr
      intro cache k c hk h
      simp only [runLife, computeKeys_append, List.count_append]
      rw [runPass_hit_no_compute t reg files [] cache k c hk h]
      rw [ih _ k c hk (runPass_mono t reg files [] cache k c h)]

/-- Over a process lifetime in which every per-file computation
succeeds, every non-today key is computed at most once. -/
theorem runLife_compute_le_one (t : Str) :
    ∀ (passes : List (Reg × List LogFile)) (cache : Cache) (k : Key),
    (∀ pr ∈ passes, ∀ f ∈ pr.2, exIsOk (counts_per_file pr.1 f.2) = true) →
    k.1 ≠ fullPath t →
    List.count k (computeKeys (runLife t cache passes).2) ≤ 1 := by
  intro passes
  induction passes with
  | nil => intro cache k hok hk; simp [runLife, computeKeys]
  | cons pr rest ih =>
      obtain ⟨reg, files⟩ := pr
      intro cache k hok hk
      have hok1 : ∀ f ∈ files, exIsOk (counts_per_file reg f.2) = true :=
        fun f hf => hok (reg, files) (by simp) f hf
      have hokr : ∀ pr ∈ rest, ∀ f ∈ pr.2, exIsOk (counts_per_file pr.1 f.2) = true :=
        fun pr hpr f hf => hok pr (by simp [hpr]) f hf
      simp only [runLife, computeKeys_append, List.count_append]
      by_cases hz : 1 ≤ List.count k
          (computeKeys (runPass t reg [] cache files).events)
      · obtain ⟨c, hstore⟩ :=
          runPass_computed_stored t reg files [] cache k hok1 hk hz
        rw [runLife_hit_no_compute t rest _ k c hk hstore]
        have := runPass_compute_le_one t reg files [] cache k hk
        omega
      · have h0 : List.count k
            (computeKeys (runPass t reg [] cache files).events) = 0 := by omega
        rw [h0]
        have := ih (runPass t reg [] cache files).cache k hokr hk
        omega

/-- Over a process lifetime in which every per-file computation
succeeds, every non-today file of every pass ends the lifetime with its
counts present in the cache under its own key. -/
theorem runLife_file_cached (t : Str) :
    ∀ (passes : List (Reg × List LogFile)) (cache : Cache)
      (pr : Reg × List LogFile) (f : LogFile),
    (∀ q ∈ passes, ∀ g ∈ q.2, exIsOk (counts_per_file q.1 g.2) = true) →
    pr ∈ passes → f ∈ pr.2 → f.1 ≠ t →
    ∃ c, lookupCache (runLife t cache passes).1 (fullPath f.1, pr.1) = some c := by
  intro passes
  induction passes with
  | nil => intro cache pr f hok hpr; simp at hpr
  | cons q rest ih =>
      obtain ⟨reg, files⟩ := q
      intro cache pr f hok hpr hf hft
      have hok1 : ∀ g ∈ files, exIsOk (counts_per_file reg g.2) = true :=
        fun g hg => hok (reg, files) (by simp) g hg
      have hokr : ∀ q ∈ rest, ∀ g ∈ q.2, exIsOk (counts_per_file q.1 g.2) = true :=
        fun q hq g hg => hok q (by simp [hq]) g hg
      simp only [runLife]
      rcases List.mem_cons.mp hpr with hpq | hpr2
      · subst hpq
        obtain ⟨c, hc⟩ := runPass_file_cached t reg files [] cache f hok1 hf hft
        exact ⟨c, runLife_mono t rest _ _ c hc⟩
      · exact ih _ pr f hokr hpr2 hf hft

/-- Claim C5: over a whole process lifetime of aggregation passes
(starting from an empty cache, every per-file computation succeeding):
no cache lookup or cache store ever carries the key of the today file,
so an entry keyed by the today path is never created nor consulted and
never sits in the cache; every non-today key is computed at most once;
and every non-today file of every pass ends the lifetime memoized under
its own (path, matcher) key. -/
theorem chatrank_c5 (todayLog : Str) (passes : List (Reg × List LogFile))
    (hok : ∀ pr ∈ passes, ∀ f ∈ pr.2, exIsOk (counts_per_file pr.1 f.2) = true) :
    (∀ e ∈ (runLife todayLog [] passes).2,
        isTouch e = true → (keyOf e).1 ≠ fullPath todayLog)
    ∧ (∀ r : Reg,
        lookupCache (runLife todayLog [] passes).1 (fullPath todayLog, r) = none)
    ∧ (∀ k : Key, k.1 ≠ fullPath todayLog →
        List.count k (computeKeys (runLife todayLog [] passes).2) ≤ 1)
    ∧ (∀ pr ∈ passes, ∀ f ∈ pr.2, f.1 ≠ todayLog →
        ∃ c, lookupCache (runLife todayLog [] passes).1
          (fullPath f.1, pr.1) = some c) := by
  refine ⟨?_, ?_, ?_, ?_⟩
  · exact runLife_no_today_touch todayLog passes []
  · intro r
    exact runLife_today_not_cached todayLog passes [] r rfl
  · intro k hk
    exact runLife_compute_le_one todayLog passes [] k hok hk
  · intro pr hpr f hf hft
    exact runLife_file_cached todayLog passes [] pr f hok hpr hf hft

/-- Concrete lifetime for the caching witness: two identical passes
over a directory holding one past file and the today file. -/
def lifePassesEx : List (Reg × List LogFile) :=
  [(.chatLog, [("a.log".data, ["[1] <u> hi".data]),
               ("t.log".data, ["[1] <v> hi".data])]),
   (.chatLog, [("a.log".data, ["[1] <u> hi".data]),
               ("t.log".data, ["[1] <v> hi".data])])]

/-- Witness for claim C5 on the concrete lifetime, with the success
hypothesis discharged by evaluation. -/
theorem chatrank_c5_witness :
    (∀ pr ∈ lifePassesEx, ∀ f ∈ pr.2,
        exIsOk (counts_per_file pr.1 f.2) = true)
    ∧ ((∀ e ∈ (runLife "t.log".data [] lifePassesEx).2,
          isTouch e = true → (keyOf e).1 ≠ fullPath "t.log".data)
      ∧ (∀ r : Reg, lookupCache (runLife "t.log".data [] lifePassesEx).1
            (fullPath "t.log".data, r) = none)
      ∧ (∀ k : Key, k.1 ≠ fullPath "t.log".data →
          List.count k (computeKeys (runLife "t.log".data [] lifePassesEx).2) ≤ 1)
      ∧ (∀ pr ∈ lifePassesEx, ∀ f ∈ pr.2, f.1 ≠ "t.log".data →
          ∃ c, lookupCache (runLife "t.log".data [] lifePassesEx).1
            (fullPath f.1, pr.1) = some c)) :=
  ⟨by decide, chatrank_c5 "t.log".data lifePassesEx (by decide)⟩
